import Mathlib

/-!
# Mode button controller (`buttons.h`)

A shallow embedding of `buttons.h`: the mode counter `modeNumber`, the event
callback `modeButtonEventHandler` and the rate-limited polling function
`checkButtons`.

Machine integers are natural numbers with explicit reduction: a `uint8_t` store
is `% 256`, a `uint16_t` store is `% 65536`.  Arithmetic on promoted operands is
done in `Int`, as C++ does it in `int`, and converted back explicitly.

The debounce unit (`AceButton`, `ButtonConfig`) is an external library.  It
enters the model as a parameter: its two event codes (`EventCodes`) and its
sampling step (`DebounceUnit`).
-/

namespace Buttons

/-! ## Machine integers -/

/-- Conversion of an `int` value to `uint8_t`: reduction modulo `2^8`. -/
def toUint8 (i : Int) : Nat := (i % 256).toNat

/-- Conversion of an `int` value to `uint16_t`: reduction modulo `2^16`. -/
def toUint16 (i : Int) : Nat := (i % 65536).toNat

/-! ## The mode counter and the event callback -/

/-- The constant `#define NUM_MODES 4`. -/
def NUM_MODES : Nat := 4

/-- Initial value of the global: `uint8_t modeNumber = 0;`. -/
def modeNumberInit : Nat := 0

/-- The two `AceButton` event codes the callback switches on.  They are declared in
the external header `AceButton.h`, so they are parameters of the model.  They are
case labels of one `switch`, hence distinct. -/
structure EventCodes where
  /-- The code `AceButton::kEventPressed`. -/
  kEventPressed : Nat
  /-- The code `AceButton::kEventReleased`. -/
  kEventReleased : Nat
  /-- Case labels of one `switch` are pairwise different. -/
  distinct : kEventPressed ≠ kEventReleased

/-- The values the two codes have in the `AceButton` library
(`kEventPressed = 0`, `kEventReleased = 1`); used for concrete runs. -/
def aceButtonCodes : EventCodes :=
  ⟨0, 1, by decide⟩

/-- The callback
`void modeButtonEventHandler(AceButton* button, uint8_t eventType, uint8_t buttonState)`.
The global `modeNumber` is passed in and its new value is returned; the other
arguments are the values of the parameters.  In the
`kEventReleased` case `modeNumber + 1` is computed in `int`, reduced by `% NUM_MODES`,
and stored back into the `uint8_t`.  Event types without a case label fall out of
the `switch`. -/
def modeButtonEventHandler (K : EventCodes) (modeNumber : Nat)
    (button eventType buttonState : Nat) : Nat :=
  if eventType = K.kEventPressed then
    modeNumber
  else if eventType = K.kEventReleased then
    toUint8 (((modeNumber : Int) + 1) % (NUM_MODES : Int))
  else
    modeNumber

/-- One invocation of the registered callback by the debounce unit: the three
arguments it is called with. -/
structure ButtonEvent where
  /-- The `AceButton*` argument (an address). -/
  button : Nat
  /-- The `eventType` argument. -/
  eventType : Nat
  /-- The `buttonState` argument. -/
  buttonState : Nat
deriving DecidableEq

/-- The callback applied to one recorded invocation. -/
def handle (K : EventCodes) (modeNumber : Nat) (e : ButtonEvent) : Nat :=
  modeButtonEventHandler K modeNumber e.button e.eventType e.buttonState

/-- The value of `modeNumber` after a finite sequence of callback invocations. -/
def handleAll (K : EventCodes) (modeNumber : Nat) (es : List ButtonEvent) : Nat :=
  es.foldl (handle K) modeNumber

/-- Number of `kEventReleased` invocations in a sequence of callback invocations. -/
def releasedCount (K : EventCodes) (es : List ButtonEvent) : Nat :=
  es.countP (fun e => decide (e.eventType = K.kEventReleased))

/-! ## The polling function -/

/-- The external debounce unit `modeButton`, with internal state `σ` and external
input `ι` (the pin level and whatever else the library reads).  `check` is the
library call `modeButton.check()`: it returns the new internal state and the
invocations it makes, in order, of the callback that `setupButtons` registered. -/
structure DebounceUnit (σ ι : Type) where
  /-- The library call `modeButton.check()`. -/
  check : σ → ι → σ × List ButtonEvent

/-- The mutable state `checkButtons` works on. -/
structure State (σ : Type) where
  /-- The global `uint8_t modeNumber`. -/
  modeNumber : Nat
  /-- The function-local `static uint16_t prev`; `none` until its initialiser has
  run, which happens on the first call of `checkButtons`. -/
  prev : Option Nat
  /-- The internal state of the external object `modeButton`. -/
  modeButton : σ
deriving DecidableEq

/-- The state at startup, before the first call of `checkButtons`. -/
def State.init {σ : Type} (b : σ) : State σ :=
  ⟨modeNumberInit, none, b⟩

/-- The test `(uint16_t)(now - prev) >= 5` computes this value: both `uint16_t`
operands are promoted to `int`, subtracted there, and the difference is converted
to `uint16_t`. -/
def elapsed (now prev : Nat) : Nat :=
  toUint16 ((now : Int) - (prev : Int))

/-- The function `void checkButtons()`.  `tInit` is the value `millis()` returns in
the initialiser of the static `prev` (read on the first call only), `tNow` the value
it returns for `now`, `inp` what the debounce unit reads if it is asked to sample.
The Boolean tells whether `modeButton.check()` was invoked. -/
def checkButtons {σ ι : Type} (K : EventCodes) (U : DebounceUnit σ ι) (s : State σ)
    (tInit tNow : Nat) (inp : ι) : State σ × Bool :=
  let prev : Nat :=
    match s.prev with
    | some p => p
    | none => toUint16 (tInit : Int)
  let now : Nat := toUint16 (tNow : Int)
  if 5 ≤ elapsed now prev then
    let r := U.check s.modeButton inp
    (⟨handleAll K s.modeNumber r.2, some now, r.1⟩, true)
  else
    (⟨s.modeNumber, some prev, s.modeButton⟩, false)

/-- One call of `checkButtons` as seen from the host loop. -/
structure Call (ι : Type) where
  /-- Value of `millis()` in the initialiser of `prev` (used on the first call). -/
  tInit : Nat
  /-- Value of `millis()` read into `now`. -/
  tNow : Nat
  /-- What the debounce unit reads during this call. -/
  inp : ι

/-- Successive calls of `checkButtons`: the final state, and for each call, in
order, its clock reading `tNow` and whether it invoked `modeButton.check()`. -/
def runCalls {σ ι : Type} (K : EventCodes) (U : DebounceUnit σ ι) :
    State σ → List (Call ι) → State σ × List (Nat × Bool)
  | s, [] => (s, [])
  | s, c :: cs =>
    let r := checkButtons K U s c.tInit c.tNow c.inp
    let rest := runCalls K U r.1 cs
    (rest.1, (c.tNow, r.2) :: rest.2)

/-- The clock readings of the calls that invoked `modeButton.check()`, in order. -/
def sampleTimes (log : List (Nat × Bool)) : List Nat :=
  (log.filter (fun x => x.2)).map (fun x => x.1)

/-! ## A small debounce unit for concrete runs -/

/-- A stand-in debounce unit for concrete runs (it is not `AceButton`): it remembers
the last pin level it saw (`true` is high, the idle level with the pull-up) and
reports a pressed event on a high-to-low edge and a released event on a low-to-high
edge, without any filtering. -/
def edgeUnit (K : EventCodes) : DebounceUnit Bool Bool where
  check := fun last level =>
    if last = level then (level, [])
    else if level = false then (level, [⟨0, K.kEventPressed, 0⟩])
    else (level, [⟨0, K.kEventReleased, 1⟩])

/-- Sixteen calls one clock unit apart, at the readings `65530, ..., 65545`, so the
16-bit timestamp wraps from `65535` to `0` during the run; the pin is low (pressed)
during calls `0-3` and `8-11` and high otherwise. -/
def wrapCalls : List (Call Bool) :=
  (List.range 16).map (fun k => ⟨65530, 65530 + k, decide (4 ≤ k % 8)⟩)

/-- A second stand-in debounce unit for concrete runs (it is not `AceButton`): it
records every input it is asked to sample, in order, and reports one released event
each time. -/
def recordUnit (K : EventCodes) : DebounceUnit (List Nat) Nat where
  check := fun seen x => (seen ++ [x], [⟨0, K.kEventReleased, 1⟩])

/-- Sixteen calls one clock unit apart, at the readings `65530, ..., 65545`; the input
of call `k` is the number `k`. -/
def countedCalls : List (Call Nat) :=
  (List.range 16).map (fun k => ⟨65530, 65530 + k, k⟩)

/-! ## Reference behaviour of a run with one call per clock unit -/

/-- One invocation of `modeButton.check()` on input `inp`, the callback handling the
events it reports: the new `modeNumber` and the new state of the debounce unit. -/
def invokeCheck {σ ι : Type} (K : EventCodes) (U : DebounceUnit σ ι) (mb : Nat × σ)
    (inp : ι) : Nat × σ :=
  (handleAll K mb.1 (U.check mb.2 inp).2, (U.check mb.2 inp).1)

/-- The inputs of the calls whose number, counted from `i`, is a positive multiple of
five, in order. -/
def fifthInputs {ι : Type} (i : Nat) (inps : List ι) : List ι :=
  ((inps.enumFrom i).filter (fun q => decide (0 < q.1 ∧ q.1 % 5 = 0))).map Prod.snd

/-! ## Arithmetic of the machine integers -/

theorem toUint16_natCast (n : Nat) : toUint16 (n : Int) = n % 65536 := by
  unfold toUint16; omega

/-- The elapsed value between the truncations of two readings `p ≤ t` is the true
difference modulo `2^16`. -/
theorem elapsed_trunc (p t : Nat) (h : p ≤ t) :
    elapsed (toUint16 (t : Int)) (toUint16 (p : Int)) = (t - p) % 65536 := by
  unfold elapsed toUint16; omega

/-! ## The event callback -/

theorem handler_released (K : EventCodes) (m button buttonState : Nat) :
    modeButtonEventHandler K m button K.kEventReleased buttonState = (m + 1) % 4 := by
  unfold modeButtonEventHandler
  rw [if_neg (fun h => K.distinct h.symm), if_pos rfl]
  unfold toUint8 NUM_MODES
  omega

theorem handler_not_released (K : EventCodes) (m button eventType buttonState : Nat)
    (h : eventType ≠ K.kEventReleased) :
    modeButtonEventHandler K m button eventType buttonState = m := by
  unfold modeButtonEventHandler
  rw [if_neg h, ite_self]

theorem handler_lt (K : EventCodes) (m button eventType buttonState : Nat) (h : m < 4) :
    modeButtonEventHandler K m button eventType buttonState < 4 := by
  by_cases he : eventType = K.kEventReleased
  · subst he
    rw [handler_released]
    omega
  · rw [handler_not_released K m button eventType buttonState he]
    exact h

theorem handle_lt (K : EventCodes) (m : Nat) (e : ButtonEvent) (h : m < 4) :
    handle K m e < 4 :=
  handler_lt K m e.button e.eventType e.buttonState h

theorem handleAll_cons (K : EventCodes) (m : Nat) (e : ButtonEvent) (es : List ButtonEvent) :
    handleAll K m (e :: es) = handleAll K (handle K m e) es := rfl

theorem handleAll_lt (K : EventCodes) (es : List ButtonEvent) :
    ∀ m : Nat, m < 4 → handleAll K m es < 4 := by
  induction es with
  | nil => intro m h; exact h
  | cons e es ih =>
    intro m h
    rw [handleAll_cons]
    exact ih _ (handle_lt K m e h)

/-- Closed form of the counter after a sequence of callback invocations. -/
theorem handleAll_eq (K : EventCodes) (es : List ButtonEvent) :
    ∀ m : Nat, m < 4 → handleAll K m es = (m + releasedCount K es) % 4 := by
  induction es with
  | nil =>
    intro m h
    simp [handleAll, releasedCount]
    omega
  | cons e es ih =>
    intro m h
    rw [handleAll_cons, ih _ (handle_lt K m e h)]
    by_cases he : e.eventType = K.kEventReleased
    · have h1 : handle K m e = (m + 1) % 4 := by
        unfold handle
        rw [he, handler_released]
      have h2 : releasedCount K (e :: es) = releasedCount K es + 1 := by
        unfold releasedCount
        rw [List.countP_cons_of_pos]
        simpa using he
      rw [h1, h2]
      omega
    · have h1 : handle K m e = m := handler_not_released K m _ _ _ he
      have h2 : releasedCount K (e :: es) = releasedCount K es := by
        unfold releasedCount
        rw [List.countP_cons_of_neg]
        simpa using he
      rw [h1, h2]

/-! ## The polling function -/

theorem checkButtons_skip {σ ι : Type} (K : EventCodes) (U : DebounceUnit σ ι)
    (s : State σ) (p tInit tNow : Nat) (inp : ι) (hp : s.prev = some p)
    (h : elapsed (toUint16 (tNow : Int)) p < 5) :
    checkButtons K U s tInit tNow inp = (s, false) := by
  obtain ⟨m, pr, b⟩ := s
  simp only at hp
  subst hp
  simp only [checkButtons]
  rw [if_neg (by omega)]

theorem checkButtons_sample {σ ι : Type} (K : EventCodes) (U : DebounceUnit σ ι)
    (s : State σ) (p tInit tNow : Nat) (inp : ι) (hp : s.prev = some p)
    (h : 5 ≤ elapsed (toUint16 (tNow : Int)) p) :
    checkButtons K U s tInit tNow inp =
      (⟨handleAll K s.modeNumber (U.check s.modeButton inp).2,
        some (toUint16 (tNow : Int)), (U.check s.modeButton inp).1⟩, true) := by
  obtain ⟨m, pr, b⟩ := s
  simp only at hp
  subst hp
  simp only [checkButtons]
  rw [if_pos h]

/-- A call that samples records the truncated reading. -/
theorem checkButtons_prev_of_sampled {σ ι : Type} (K : EventCodes) (U : DebounceUnit σ ι)
    (s : State σ) (tInit tNow : Nat) (inp : ι)
    (h : (checkButtons K U s tInit tNow inp).2 = true) :
    (checkButtons K U s tInit tNow inp).1.prev = some (toUint16 (tNow : Int)) := by
  unfold checkButtons at h ⊢
  simp only at h ⊢
  split
  · rfl
  · rename_i hlt
    rw [if_neg hlt] at h
    exact absurd h (by simp)

theorem runCalls_cons {σ ι : Type} (K : EventCodes) (U : DebounceUnit σ ι) (s : State σ)
    (c : Call ι) (cs : List (Call ι)) :
    runCalls K U s (c :: cs) =
      ((runCalls K U (checkButtons K U s c.tInit c.tNow c.inp).1 cs).1,
        (c.tNow, (checkButtons K U s c.tInit c.tNow c.inp).2) ::
          (runCalls K U (checkButtons K U s c.tInit c.tNow c.inp).1 cs).2) := rfl

theorem sampleTimes_cons_true (t : Nat) (log : List (Nat × Bool)) :
    sampleTimes ((t, true) :: log) = t :: sampleTimes log := by
  simp [sampleTimes]

theorem sampleTimes_cons_false (t : Nat) (log : List (Nat × Bool)) :
    sampleTimes ((t, false) :: log) = sampleTimes log := by
  simp [sampleTimes]

/-- Once a sample was taken at reading `q`, every later sample of a non-decreasing
run lies at least five units after `q`, and the samples are five units apart. -/
theorem sampleTimes_after {σ ι : Type} (K : EventCodes) (U : DebounceUnit σ ι)
    (calls : List (Call ι)) :
    ∀ (q : Nat) (s : State σ), s.prev = some (toUint16 (q : Int)) →
      (∀ c ∈ calls, q ≤ c.tNow) →
      List.Pairwise (fun a b => a ≤ b) (calls.map Call.tNow) →
      (∀ x ∈ sampleTimes (runCalls K U s calls).2, q + 5 ≤ x) ∧
        List.Pairwise (fun a b => a + 5 ≤ b) (sampleTimes (runCalls K U s calls).2) := by
  induction calls with
  | nil =>
    intro q s _ _ _
    simp [runCalls, sampleTimes]
  | cons c cs ih =>
    intro q s hp hq hs
    have hqc : q ≤ c.tNow := hq c (List.mem_cons_self _ _)
    have hqs : ∀ d ∈ cs, q ≤ d.tNow := fun d hd => hq d (List.mem_cons_of_mem _ hd)
    rw [List.map_cons, List.pairwise_cons] at hs
    have hcs : ∀ d ∈ cs, c.tNow ≤ d.tNow := fun d hd =>
      hs.1 d.tNow (List.mem_map_of_mem _ hd)
    have hel := elapsed_trunc q c.tNow hqc
    rw [runCalls_cons]
    by_cases h5 : 5 ≤ elapsed (toUint16 (c.tNow : Int)) (toUint16 (q : Int))
    · rw [checkButtons_sample K U s _ c.tInit c.tNow c.inp hp h5]
      simp only
      rw [sampleTimes_cons_true]
      have hge : q + 5 ≤ c.tNow := by
        have := Nat.mod_le (c.tNow - q) 65536
        omega
      obtain ⟨h1, h2⟩ := ih c.tNow
        ⟨handleAll K s.modeNumber (U.check s.modeButton c.inp).2,
          some (toUint16 (c.tNow : Int)), (U.check s.modeButton c.inp).1⟩ rfl hcs hs.2
      refine ⟨?_, ?_⟩
      · intro x hx
        rcases List.mem_cons.1 hx with rfl | hx
        · exact hge
        · have := h1 x hx
          omega
      · exact List.pairwise_cons.2 ⟨h1, h2⟩
    · rw [checkButtons_skip K U s _ c.tInit c.tNow c.inp hp (by omega)]
      simp only
      rw [sampleTimes_cons_false]
      exact ih q s hp hqs hs.2

/-- From any state, the samples of a non-decreasing run are five units apart. -/
theorem sampleTimes_pairwise {σ ι : Type} (K : EventCodes) (U : DebounceUnit σ ι)
    (calls : List (Call ι)) :
    ∀ (s : State σ), List.Pairwise (fun a b => a ≤ b) (calls.map Call.tNow) →
      List.Pairwise (fun a b => a + 5 ≤ b) (sampleTimes (runCalls K U s calls).2) := by
  induction calls with
  | nil =>
    intro s _
    simp [runCalls, sampleTimes]
  | cons c cs ih =>
    intro s hs
    rw [List.map_cons, List.pairwise_cons] at hs
    have hcs : ∀ d ∈ cs, c.tNow ≤ d.tNow := fun d hd =>
      hs.1 d.tNow (List.mem_map_of_mem _ hd)
    rw [runCalls_cons]
    cases hb : (checkButtons K U s c.tInit c.tNow c.inp).2 with
    | false =>
      simp only
      rw [sampleTimes_cons_false]
      exact ih _ hs.2
    | true =>
      simp only
      rw [sampleTimes_cons_true]
      obtain ⟨h1, h2⟩ := sampleTimes_after K U cs c.tNow _
        (checkButtons_prev_of_sampled K U s c.tInit c.tNow c.inp hb) hcs hs.2
      exact List.pairwise_cons.2 ⟨h1, h2⟩

theorem checkButtons_first {σ ι : Type} (K : EventCodes) (U : DebounceUnit σ ι)
    (m : Nat) (b : σ) (tInit tNow : Nat) (inp : ι) :
    checkButtons K U ⟨m, none, b⟩ tInit tNow inp =
      checkButtons K U ⟨m, some (toUint16 (tInit : Int)), b⟩ tInit tNow inp := rfl

theorem checkButtons_modeNumber_lt {σ ι : Type} (K : EventCodes) (U : DebounceUnit σ ι)
    (s : State σ) (tInit tNow : Nat) (inp : ι) (h : s.modeNumber < 4) :
    (checkButtons K U s tInit tNow inp).1.modeNumber < 4 := by
  unfold checkButtons
  simp only
  split
  · exact handleAll_lt K _ _ h
  · exact h

theorem runCalls_modeNumber_lt {σ ι : Type} (K : EventCodes) (U : DebounceUnit σ ι)
    (calls : List (Call ι)) :
    ∀ s : State σ, s.modeNumber < 4 → (runCalls K U s calls).1.modeNumber < 4 := by
  induction calls with
  | nil => intro s h; exact h
  | cons c cs ih =>
    intro s h
    rw [runCalls_cons]
    exact ih _ (checkButtons_modeNumber_lt K U s c.tInit c.tNow c.inp h)

/-- Calls one clock unit apart, the `i`-th at reading `t0 + i`, when the last
timestamp stored before call `i` is the one of the latest multiple of five below
`i`: call `k` samples exactly when `k` is a positive multiple of five. -/
theorem runCalls_ticks {σ ι : Type} (K : EventCodes) (U : DebounceUnit σ ι) (t0 : Nat)
    (calls : List (Call ι)) :
    ∀ (i : Nat) (s : State σ), 0 < i →
      s.prev = some (toUint16 ((t0 + 5 * ((i - 1) / 5) : Nat) : Int)) →
      calls.map Call.tNow = (List.range' i calls.length).map (fun k => t0 + k) →
      (runCalls K U s calls).2 =
        (List.range' i calls.length).map (fun k => (t0 + k, decide (0 < k ∧ k % 5 = 0))) := by
  induction calls with
  | nil =>
    intro i s _ _ _
    rfl
  | cons c cs ih =>
    intro i s hi hp hnow
    simp only [List.length_cons, List.range'_succ, List.map_cons, List.cons.injEq] at hnow
    simp only [List.length_cons, List.range'_succ, List.map_cons]
    obtain ⟨hc, hcs⟩ := hnow
    have hle : t0 + 5 * ((i - 1) / 5) ≤ c.tNow := by omega
    have hel := elapsed_trunc (t0 + 5 * ((i - 1) / 5)) c.tNow hle
    rw [runCalls_cons]
    by_cases h5 : i % 5 = 0
    · have hs : 5 ≤ elapsed (toUint16 (c.tNow : Int))
          (toUint16 ((t0 + 5 * ((i - 1) / 5) : Nat) : Int)) := by
        rw [hel]; omega
      rw [checkButtons_sample K U s _ c.tInit c.tNow c.inp hp hs]
      simp only
      refine congrArg₂ List.cons ?_ ?_
      · rw [hc]; simp [hi, h5]
      · apply ih (i + 1) _ (by omega) _ hcs
        simp only
        congr 2
        omega
    · have hs : elapsed (toUint16 (c.tNow : Int))
          (toUint16 ((t0 + 5 * ((i - 1) / 5) : Nat) : Int)) < 5 := by
        rw [hel]; omega
      rw [checkButtons_skip K U s _ c.tInit c.tNow c.inp hp hs]
      simp only
      refine congrArg₂ List.cons ?_ ?_
      · rw [hc]; simp [h5]
      · apply ih (i + 1) s (by omega) _ hcs
        rw [hp]
        congr 2
        omega

theorem fifthInputs_nil {ι : Type} (i : Nat) : fifthInputs i ([] : List ι) = [] := rfl

theorem fifthInputs_cons_pos {ι : Type} (i : Nat) (x : ι) (xs : List ι)
    (h : 0 < i ∧ i % 5 = 0) :
    fifthInputs i (x :: xs) = x :: fifthInputs (i + 1) xs := by
  simp [fifthInputs, List.enumFrom_cons, List.filter_cons, h]

theorem fifthInputs_cons_neg {ι : Type} (i : Nat) (x : ι) (xs : List ι)
    (h : ¬ (0 < i ∧ i % 5 = 0)) :
    fifthInputs i (x :: xs) = fifthInputs (i + 1) xs := by
  simp only [fifthInputs, List.enumFrom_cons, List.filter_cons]
  rw [if_neg (by simpa using h)]

/-- Calls one clock unit apart, as in `runCalls_ticks`: the final state is the one
obtained by invoking `modeButton.check()` on the inputs of exactly the calls whose
number is a positive multiple of five, and `prev` holds the reading of the last of
them. -/
theorem runCalls_ticks_state {σ ι : Type} (K : EventCodes) (U : DebounceUnit σ ι) (t0 : Nat)
    (calls : List (Call ι)) :
    ∀ (i : Nat) (s : State σ), 0 < i →
      s.prev = some (toUint16 ((t0 + 5 * ((i - 1) / 5) : Nat) : Int)) →
      calls.map Call.tNow = (List.range' i calls.length).map (fun k => t0 + k) →
      (runCalls K U s calls).1 =
        ⟨((fifthInputs i (calls.map Call.inp)).foldl (invokeCheck K U)
            (s.modeNumber, s.modeButton)).1,
          some (toUint16 ((t0 + 5 * ((i + calls.length - 1) / 5) : Nat) : Int)),
          ((fifthInputs i (calls.map Call.inp)).foldl (invokeCheck K U)
            (s.modeNumber, s.modeButton)).2⟩ := by
  induction calls with
  | nil =>
    intro i s _ hp _
    obtain ⟨m, pr, b⟩ := s
    simp only at hp
    subst hp
    rfl
  | cons c cs ih =>
    intro i s hi hp hnow
    simp only [List.length_cons, List.range'_succ, List.map_cons, List.cons.injEq] at hnow
    obtain ⟨hc, hcs⟩ := hnow
    have hle : t0 + 5 * ((i - 1) / 5) ≤ c.tNow := by omega
    have hel := elapsed_trunc (t0 + 5 * ((i - 1) / 5)) c.tNow hle
    have hlen : i + (cs.length + 1) - 1 = i + 1 + cs.length - 1 := by omega
    rw [runCalls_cons, List.map_cons, List.length_cons, hlen]
    by_cases h5 : i % 5 = 0
    · have hs : 5 ≤ elapsed (toUint16 (c.tNow : Int))
          (toUint16 ((t0 + 5 * ((i - 1) / 5) : Nat) : Int)) := by
        rw [hel]; omega
      rw [checkButtons_sample K U s _ c.tInit c.tNow c.inp hp hs,
        fifthInputs_cons_pos i c.inp _ ⟨hi, h5⟩]
      simp only
      rw [ih (i + 1) _ (by omega) _ hcs]
      · rfl
      · simp only
        congr 2
        omega
    · have hs : elapsed (toUint16 (c.tNow : Int))
          (toUint16 ((t0 + 5 * ((i - 1) / 5) : Nat) : Int)) < 5 := by
        rw [hel]; omega
      rw [checkButtons_skip K U s _ c.tInit c.tNow c.inp hp hs,
        fifthInputs_cons_neg i c.inp _ (fun h => h5 h.2)]
      simp only
      rw [ih (i + 1) s (by omega) _ hcs]
      rw [hp]
      congr 2
      omega

theorem handler_pressed (K : EventCodes) (m button buttonState : Nat) :
    modeButtonEventHandler K m button K.kEventPressed buttonState = m :=
  handler_not_released K m button K.kEventPressed buttonState K.distinct

theorem checkButtons_of_sampled {σ ι : Type} (K : EventCodes) (U : DebounceUnit σ ι)
    (s : State σ) (tInit tNow : Nat) (inp : ι)
    (h : (checkButtons K U s tInit tNow inp).2 = true) :
    (checkButtons K U s tInit tNow inp).1 =
      ⟨handleAll K s.modeNumber (U.check s.modeButton inp).2,
        some (toUint16 (tNow : Int)), (U.check s.modeButton inp).1⟩ := by
  unfold checkButtons at h ⊢
  simp only at h ⊢
  split
  · rfl
  · rename_i hlt
    rw [if_neg hlt] at h
    exact absurd h (by simp)

theorem checkButtons_of_not_sampled {σ ι : Type} (K : EventCodes) (U : DebounceUnit σ ι)
    (s : State σ) (tInit tNow : Nat) (inp : ι)
    (h : (checkButtons K U s tInit tNow inp).2 = false) :
    (checkButtons K U s tInit tNow inp).1.modeNumber = s.modeNumber ∧
      (checkButtons K U s tInit tNow inp).1.modeButton = s.modeButton := by
  unfold checkButtons at h ⊢
  simp only at h ⊢
  split
  · rename_i hge
    rw [if_pos hge] at h
    exact absurd h (by simp)
  · exact ⟨rfl, rfl⟩

/-! ## The claims -/

/-- C1: the mode counter is always in `[0, 4)`.  `modeNumber` starts at `0`; for every
event type and button state, a callback invocation entered with `modeNumber < 4`
leaves `modeNumber < 4`; hence `modeNumber < 4` after any finite sequence of callback
invocations from startup, and in every state a finite run of `checkButtons` calls
reaches from startup, whatever the debounce unit reports. -/
theorem modeNumber_in_range (K : EventCodes) :
    modeNumberInit = 0 ∧
    (∀ m button eventType buttonState : Nat, m < NUM_MODES →
      modeButtonEventHandler K m button eventType buttonState < NUM_MODES) ∧
    (∀ es : List ButtonEvent, handleAll K modeNumberInit es < NUM_MODES) ∧
    (∀ (σ ι : Type) (U : DebounceUnit σ ι) (b : σ) (calls : List (Call ι)),
      (runCalls K U (State.init b) calls).1.modeNumber < NUM_MODES) := by
  refine ⟨rfl, ?_, ?_, ?_⟩
  · intro m button eventType buttonState h
    exact handler_lt K m button eventType buttonState h
  · intro es
    exact handleAll_lt K es 0 (by decide)
  · intro σ ι U b calls
    exact runCalls_modeNumber_lt K U calls (State.init b) (show (0 : Nat) < 4 by decide)

/-- Instance of C1: a released event at mode `3`, and a run of four invocations. -/
theorem modeNumber_in_range_witness :
    (3 : Nat) < NUM_MODES ∧ modeButtonEventHandler aceButtonCodes 3 0 1 0 < NUM_MODES ∧
    handleAll aceButtonCodes modeNumberInit
      [⟨0, 0, 0⟩, ⟨0, 1, 1⟩, ⟨0, 7, 1⟩, ⟨0, 1, 1⟩] < NUM_MODES :=
  ⟨by decide, (modeNumber_in_range aceButtonCodes).2.1 3 0 1 0 (by decide),
    (modeNumber_in_range aceButtonCodes).2.2.1 _⟩

/-- C2: for every value `m` of `modeNumber` (in particular every 8-bit one), the callback
invoked with `kEventReleased`, any button pointer and any button state, leaves
`modeNumber = (m + 1) mod 4`, the sum taken without 8-bit wrap: `m = 255` and `m = 3`
both give `0`.  From mode `0`, four press-then-release pairs step the counter through
`1, 2, 3, 0`, each press leaving it as it was. -/
theorem released_increments_mod_four (K : EventCodes) :
    (∀ m button buttonState : Nat,
      modeButtonEventHandler K m button K.kEventReleased buttonState = (m + 1) % 4) ∧
    (∀ button buttonState : Nat,
      modeButtonEventHandler K 255 button K.kEventReleased buttonState = 0 ∧
      modeButtonEventHandler K 3 button K.kEventReleased buttonState = 0) ∧
    (∀ button down up : Nat,
      List.scanl (handle K) modeNumberInit
        [⟨button, K.kEventPressed, down⟩, ⟨button, K.kEventReleased, up⟩,
         ⟨button, K.kEventPressed, down⟩, ⟨button, K.kEventReleased, up⟩,
         ⟨button, K.kEventPressed, down⟩, ⟨button, K.kEventReleased, up⟩,
         ⟨button, K.kEventPressed, down⟩, ⟨button, K.kEventReleased, up⟩] =
        [0, 0, 1, 1, 2, 2, 3, 3, 0]) := by
  refine ⟨?_, ?_, ?_⟩
  · intro m button buttonState
    exact handler_released K m button buttonState
  · intro button buttonState
    rw [handler_released, handler_released]
    exact ⟨rfl, rfl⟩
  · intro button down up
    simp [List.scanl, handle, handler_released, handler_pressed, modeNumberInit]

/-- C3: cyclic property.  From every starting value `m` in `[0, 4)`, any finite sequence
of callback invocations that contains exactly `4` released events, with any other
events interleaved, ends with `modeNumber = m`. -/
theorem four_releases_cycle (K : EventCodes) (m : Nat) (es : List ButtonEvent)
    (hm : m < NUM_MODES) (h4 : releasedCount K es = 4) :
    handleAll K m es = m := by
  unfold NUM_MODES at hm
  rw [handleAll_eq K es m hm, h4]
  omega

/-- Instance of C3: four released events interleaved with pressed and other events,
starting from mode `2`. -/
theorem four_releases_cycle_witness :
    handleAll aceButtonCodes 2
      [⟨0, 0, 0⟩, ⟨0, 1, 1⟩, ⟨0, 2, 1⟩, ⟨0, 0, 0⟩, ⟨0, 1, 1⟩, ⟨0, 1, 1⟩, ⟨0, 4, 0⟩,
       ⟨0, 1, 1⟩, ⟨0, 0, 0⟩] = 2 :=
  four_releases_cycle aceButtonCodes 2 _ (by decide) (by decide)

/-- C4: a press event alone produces no mode change, and the released event is the only
mutation: for every value of `modeNumber`, every button state and every event type
other than `kEventReleased` (`kEventPressed` and every type the `switch` does not
list), the callback leaves `modeNumber` unchanged. -/
theorem only_released_mutates (K : EventCodes) :
    (∀ m button buttonState : Nat,
      modeButtonEventHandler K m button K.kEventPressed buttonState = m) ∧
    (∀ m button eventType buttonState : Nat, eventType ≠ K.kEventReleased →
      modeButtonEventHandler K m button eventType buttonState = m) :=
  ⟨fun m button buttonState => handler_pressed K m button buttonState,
    fun m button eventType buttonState h =>
      handler_not_released K m button eventType buttonState h⟩

/-- Instance of C4: an event type the `switch` does not list, at mode `3`. -/
theorem only_released_mutates_witness :
    (5 : Nat) ≠ aceButtonCodes.kEventReleased ∧
    modeButtonEventHandler aceButtonCodes 3 0 5 1 = 3 :=
  ⟨by decide, (only_released_mutates aceButtonCodes).2 3 0 5 1 (by decide)⟩

/-- C5: sampling does not occur more than once within any 5-unit window.  For every
non-decreasing sequence of clock readings supplied to successive `checkButtons` calls,
from any state (one call per unit and readings whose low 16 bits wrap past `65535`
included), any two calls that invoke `modeButton.check()` have clock readings at least
`5` apart. -/
theorem samples_five_apart {σ ι : Type} (K : EventCodes) (U : DebounceUnit σ ι)
    (s : State σ) (calls : List (Call ι))
    (hmono : List.Chain' (fun a b => a ≤ b) (calls.map Call.tNow)) :
    List.Pairwise (fun a b => a + 5 ≤ b) (sampleTimes (runCalls K U s calls).2) :=
  sampleTimes_pairwise K U calls s (List.chain'_iff_pairwise.1 hmono)

/-- Instance of C5: one call per unit across the 16-bit wrap, from startup. -/
theorem samples_five_apart_witness :
    List.Chain' (fun a b => a ≤ b) (wrapCalls.map Call.tNow) ∧
    List.Pairwise (fun a b => a + 5 ≤ b)
      (sampleTimes (runCalls aceButtonCodes (edgeUnit aceButtonCodes)
        (State.init true) wrapCalls).2) :=
  ⟨List.chain'_iff_pairwise.2 (by decide),
    samples_five_apart aceButtonCodes (edgeUnit aceButtonCodes) (State.init true) wrapCalls
      (List.chain'_iff_pairwise.2 (by decide))⟩

/-- C6, as the code has it: when the last timestamp recorded is the 16-bit value of the
reading `p` and a later call reads `t ≥ p` with `(t - p) mod 65536 ≥ 5`, which holds
whenever `5 ≤ t - p < 65536`, the call invokes `modeButton.check()`, lets the callback
handle the events it reports, and records `t mod 65536` as the new timestamp. -/
theorem samples_when_elapsed {σ ι : Type} (K : EventCodes) (U : DebounceUnit σ ι)
    (s : State σ) (p t tInit : Nat) (inp : ι)
    (hp : s.prev = some (toUint16 (p : Int))) (hle : p ≤ t) :
    (5 ≤ (t - p) % 65536 →
      checkButtons K U s tInit t inp =
        (⟨handleAll K s.modeNumber (U.check s.modeButton inp).2, some (t % 65536),
          (U.check s.modeButton inp).1⟩, true)) ∧
    (5 ≤ t - p → t - p < 65536 → 5 ≤ (t - p) % 65536) := by
  refine ⟨?_, ?_⟩
  · intro h
    rw [checkButtons_sample K U s _ tInit t inp hp (by rw [elapsed_trunc p t hle]; exact h),
      toUint16_natCast]
  · intro h1 h2
    omega

/-- Instance of C6 as amended: last sample at reading `65534`, next call at `65539`. -/
theorem samples_when_elapsed_witness :
    checkButtons aceButtonCodes (edgeUnit aceButtonCodes) ⟨3, some 65534, false⟩ 0 65539 true =
      (⟨0, some 3, true⟩, true) :=
  (samples_when_elapsed aceButtonCodes (edgeUnit aceButtonCodes) ⟨3, some 65534, false⟩
    65534 65539 0 true (by decide) (by decide)).1 (by decide)

/-- C6 as stated fails: with the last sample at reading `0`, a call that reads `65536`
(so `t - p = 65536 ≥ 5` on the host clock) does not invoke `modeButton.check()`: the
state is unchanged although the pin is low, and no timestamp is recorded. -/
theorem no_sample_after_full_wrap :
    (0 : Nat) + 5 ≤ 65536 ∧
    checkButtons aceButtonCodes (edgeUnit aceButtonCodes)
      ⟨0, some (toUint16 ((0 : Nat) : Int)), true⟩ 0 65536 false =
      (⟨0, some 0, true⟩, false) := by
  decide

/-- C7: the elapsed-time computation is wraparound-safe.  For all `now` and `prev`,
`(uint16_t)(now - prev)` is `(now - prev) mod 65536` with the difference taken in the
integers; for 16-bit operands that is `now - prev` when `prev ≤ now` and
`now + 65536 - prev` otherwise.  Whenever the true elapsed time `d = t - p` between two
clock readings `p ≤ t` is below `65536`, the value computed from their 16-bit
truncations is `d`, also when the truncation of `t` is below that of `p`.  For
`prev = 65534`, `now = 3` the value is `5`, so the `>= 5` test passes. -/
theorem elapsed_wraparound_safe :
    (∀ now prev : Nat, ((elapsed now prev : Nat) : Int) = ((now : Int) - (prev : Int)) % 65536) ∧
    (∀ now prev : Nat, now < 65536 → prev < 65536 →
      elapsed now prev = if prev ≤ now then now - prev else now + 65536 - prev) ∧
    (∀ p t : Nat, p ≤ t → t - p < 65536 →
      elapsed (toUint16 (t : Int)) (toUint16 (p : Int)) = t - p) ∧
    toUint16 ((65534 + 5 : Nat) : Int) = 3 ∧ elapsed 3 65534 = 5 ∧ 5 ≤ elapsed 3 65534 := by
  refine ⟨?_, ?_, ?_, ?_, ?_, ?_⟩
  · intro now prev
    unfold elapsed toUint16
    omega
  · intro now prev hn hp
    unfold elapsed toUint16
    split <;> omega
  · intro p t hle hd
    rw [elapsed_trunc p t hle]
    exact Nat.mod_eq_of_lt hd
  · decide
  · decide
  · decide

/-- Instance of C7: readings `65534` and `65539` on the host clock. -/
theorem elapsed_wraparound_safe_witness :
    toUint16 ((65539 : Nat) : Int) < toUint16 ((65534 : Nat) : Int) ∧
    elapsed (toUint16 ((65539 : Nat) : Int)) (toUint16 ((65534 : Nat) : Int)) = 65539 - 65534 ∧
    elapsed 2 65533 = if 65533 ≤ 2 then 2 - 65533 else 2 + 65536 - 65533 :=
  ⟨by decide, elapsed_wraparound_safe.2.2.1 65534 65539 (by decide) (by decide),
    elapsed_wraparound_safe.2.1 2 65533 (by decide) (by decide)⟩

/-- C9: `checkButtons` does nothing when the interval has not elapsed.  For every stored
16-bit `prev` and every clock reading `now` with `(now - prev) mod 65536 < 5`, the call
does not invoke `modeButton.check()` and leaves `prev`, `modeNumber` and the debounce
unit as they were.  A call that samples stores the 16-bit value of `now` in `prev`
(`now` itself when it fits 16 bits), and the new `modeNumber` is the old one run
through the callback on the events the debounce unit reports.  A call that does not
sample, the first one included, leaves `modeNumber` and the debounce unit alone. -/
theorem checkButtons_frame {σ ι : Type} (K : EventCodes) (U : DebounceUnit σ ι)
    (s : State σ) (tInit tNow : Nat) (inp : ι) :
    (∀ p : Nat, s.prev = some p → p < 65536 → ((tNow : Int) - (p : Int)) % 65536 < 5 →
      checkButtons K U s tInit tNow inp = (s, false)) ∧
    ((checkButtons K U s tInit tNow inp).2 = true →
      (checkButtons K U s tInit tNow inp).1.prev = some (tNow % 65536) ∧
      (tNow < 65536 → (checkButtons K U s tInit tNow inp).1.prev = some tNow) ∧
      (checkButtons K U s tInit tNow inp).1.modeNumber =
        handleAll K s.modeNumber (U.check s.modeButton inp).2 ∧
      (checkButtons K U s tInit tNow inp).1.modeButton = (U.check s.modeButton inp).1) ∧
    ((checkButtons K U s tInit tNow inp).2 = false →
      (checkButtons K U s tInit tNow inp).1.modeNumber = s.modeNumber ∧
      (checkButtons K U s tInit tNow inp).1.modeButton = s.modeButton) := by
  refine ⟨?_, ?_, ?_⟩
  · intro p hp hp16 hlt
    apply checkButtons_skip K U s p tInit tNow inp hp
    unfold elapsed toUint16
    omega
  · intro h
    rw [checkButtons_of_sampled K U s tInit tNow inp h, toUint16_natCast]
    refine ⟨rfl, ?_, rfl, rfl⟩
    intro hlt
    simp only
    rw [Nat.mod_eq_of_lt hlt]
  · intro h
    exact checkButtons_of_not_sampled K U s tInit tNow inp h

/-- Instance of C9: `prev = 65534`, `now = 65538`, pin low; then `now = 65539` with the
pin back high, which samples and delivers a released event. -/
theorem checkButtons_frame_witness :
    checkButtons aceButtonCodes (edgeUnit aceButtonCodes) ⟨1, some 65534, true⟩ 0 65538 false =
      (⟨1, some 65534, true⟩, false) ∧
    (checkButtons aceButtonCodes (edgeUnit aceButtonCodes)
      ⟨1, some 65534, false⟩ 0 65539 true).1.prev = some (65539 % 65536) ∧
    (checkButtons aceButtonCodes (edgeUnit aceButtonCodes)
      ⟨1, some 65534, false⟩ 0 65539 true).1.modeNumber = 2 :=
  ⟨(checkButtons_frame aceButtonCodes (edgeUnit aceButtonCodes) ⟨1, some 65534, true⟩
      0 65538 false).1 65534 rfl (by decide) (by decide),
    ((checkButtons_frame aceButtonCodes (edgeUnit aceButtonCodes) ⟨1, some 65534, false⟩
      0 65539 true).2.1 (by decide)).1,
    ((checkButtons_frame aceButtonCodes (edgeUnit aceButtonCodes) ⟨1, some 65534, false⟩
      0 65539 true).2.1 (by decide)).2.2.1⟩

/-- C10: `checkButtons` called once per clock unit from startup, the `k`-th call reading
`t0 + k` and the first call reading `t0` also in the initialiser of `prev`: the first
call does not sample, and `modeButton.check()` is invoked exactly on the calls at
`t0 + 5k`, `k = 1, 2, 3, ...`, for every `t0`, also when the 16-bit timestamp wraps
from `65535` to `0` during the run.  The log flags exactly those calls, and the final
state is the one reached from startup by invoking `modeButton.check()`, with the
callback handling its events, on the inputs of exactly those calls in order; `prev`
ends as the 16-bit value of the last reading `t0 + 5k` reached (of `t0` before the
first sample). -/
theorem ticks_sample_every_fifth {σ ι : Type} (K : EventCodes) (U : DebounceUnit σ ι)
    (b : σ) (t0 : Nat) (calls : List (Call ι))
    (hinit : (calls.map Call.tInit).headD t0 = t0)
    (hnow : calls.map Call.tNow = (List.range calls.length).map (fun k => t0 + k)) :
    (runCalls K U (State.init b) calls).2 =
      (List.range calls.length).map (fun k => (t0 + k, decide (0 < k ∧ k % 5 = 0))) ∧
    (runCalls K U (State.init b) calls).1 =
      ⟨((fifthInputs 0 (calls.map Call.inp)).foldl (invokeCheck K U) (modeNumberInit, b)).1,
        if calls.length = 0 then none
        else some ((t0 + 5 * ((calls.length - 1) / 5)) % 65536),
        ((fifthInputs 0 (calls.map Call.inp)).foldl (invokeCheck K U) (modeNumberInit, b)).2⟩ := by
  cases calls with
  | nil => exact ⟨rfl, rfl⟩
  | cons c cs =>
    have hi : c.tInit = t0 := by simpa using hinit
    rw [List.range_eq_range'] at hnow ⊢
    simp only [List.length_cons, List.range'_succ, List.map_cons, List.cons.injEq] at hnow
    simp only [List.length_cons, List.range'_succ, List.map_cons]
    obtain ⟨hc, hcs⟩ := hnow
    have hel := elapsed_trunc t0 c.tNow (by omega)
    have hprev : (some (toUint16 (c.tInit : Int)) : Option Nat) =
        some (toUint16 ((t0 + 5 * ((1 - 1) / 5) : Nat) : Int)) := by
      rw [hi]; rfl
    rw [runCalls_cons]
    unfold State.init
    rw [checkButtons_first, checkButtons_skip K U _ (toUint16 (c.tInit : Int)) c.tInit c.tNow
      c.inp rfl (by rw [hi, hel]; omega)]
    simp only
    refine ⟨congrArg₂ List.cons ?_ ?_, ?_⟩
    · rw [hc]; simp
    · exact runCalls_ticks K U t0 cs 1 _ (by omega) hprev hcs
    · rw [runCalls_ticks_state K U t0 cs 1 _ (by omega) hprev hcs,
        fifthInputs_cons_neg 0 c.inp _ (by omega), if_neg (Nat.succ_ne_zero _)]
      simp only [Nat.zero_add, Nat.add_sub_cancel, Nat.add_sub_cancel_left, toUint16_natCast]

/-- Instance of C10: sixteen calls from `t0 = 65530`, across the 16-bit wrap, with a
debounce unit that records its inputs and reports a released event each time.  The
calls at `65535`, `65540` and `65545` (numbers `5`, `10`, `15`) sample: the unit ends
having seen exactly the inputs `5, 10, 15`, the counter at `3`, and `prev` at
`65545 mod 65536 = 9`. -/
theorem ticks_sample_every_fifth_witness :
    (countedCalls.map Call.tInit).headD 65530 = 65530 ∧
    countedCalls.map Call.tNow = (List.range countedCalls.length).map (fun k => 65530 + k) ∧
    sampleTimes (runCalls aceButtonCodes (recordUnit aceButtonCodes)
      (State.init []) countedCalls).2 = [65535, 65540, 65545] ∧
    (runCalls aceButtonCodes (recordUnit aceButtonCodes) (State.init []) countedCalls).1 =
      ⟨3, some 9, [5, 10, 15]⟩ :=
  ⟨by decide, by decide,
    (congrArg sampleTimes
      (ticks_sample_every_fifth aceButtonCodes (recordUnit aceButtonCodes) [] 65530
        countedCalls (by decide) (by decide)).1).trans (by decide),
    (ticks_sample_every_fifth aceButtonCodes (recordUnit aceButtonCodes) [] 65530
      countedCalls (by decide) (by decide)).2.trans (by decide)⟩

end Buttons
